import Mathlib

set_option maxRecDepth 8000

/-!
Verification development for the MOT17 testbench loader (`benchmark.py`).

The file embeds the data-loading pipeline of the repository as executable
Lean definitions and proves or refutes the frozen claims about it:

* `fix_gt` — the ground-truth normalizer (stable sort of CSV rows by the
  integer frame index in the first field);
* `load_gt` — the frame-annotation grouper, a generator that streams rows
  and yields one group of boxes (or midpoints) per frame boundary, modelled
  as an explicit state machine so that the mutable-list aliasing of the
  Python code (`boxes`, `midpoints`, `self.midpoints`) is observable;
* `seqIterGo`/`seqIter` — the per-sequence frame loop pairing images with
  annotation groups;
* `dataIterGo`/`dataIter` — the dataset loop over numbered sequence
  directories, with its `except IOError` handling;
* `update_metrics` — the distance-matrix computation forwarded to the
  metrics accumulator.

Numeric CSV fields are modelled as rationals (the idealised arithmetic the
spec states); file contents are modelled as the lists of rows/records the
Python code parses them into.
-/

namespace Benchmark

/-- A parsed annotation row of `gt.txt` / `det.txt`: comma-separated fields
`frame, id, left, top, width, height, ...`.  Mirrors what
`SequenceLoader.load_gt` extracts from `line.split(',')`: `int(box[0])` and
`float(box[2]) .. float(box[5])`. -/
structure GTRow where
  frame : Int
  objId : ℚ
  left : ℚ
  top : ℚ
  width : ℚ
  height : ℚ
deriving DecidableEq, Repr

/-- `[float(box[x]) for x in range(2, 6)]` — the box appended to `boxes`. -/
def boxOf (r : GTRow) : List ℚ := [r.left, r.top, r.width, r.height]

/-- `[float(box[2]) + float(box[4]) / 2, float(box[3]) + float(box[5]) / 2]`
— the midpoint appended to `midpoints`. -/
def midOf (r : GTRow) : List ℚ := [r.left + r.width / 2, r.top + r.height / 2]

/-- Identity of the three Python list objects involved in `load_gt`:
the local `boxes` list, the local `midpoints` list, and the list that
`self.midpoints` initially denotes (created in `__init__`). -/
inductive Cell
  | boxesC
  | midC
  | initC
deriving DecidableEq, Repr

/-- The mutable state of `SequenceLoader` while `load_gt` runs: the contents
of the three list objects, which object the attribute `self.midpoints`
currently denotes (`initC` until the first frame boundary rebinds it to the
local `midpoints` list), and the frame counter `self.frame`. -/
structure GtState where
  boxes : List (List ℚ)
  mids : List (List ℚ)
  initMids : List (List ℚ)
  selfMid : Cell
  frame : Int
deriving DecidableEq, Repr

/-- One `yield` of the `load_gt` generator: the identity of the yielded list
object, its contents at the moment of the yield, and the full state at the
moment of the yield. -/
structure YieldEv where
  cell : Cell
  value : List (List ℚ)
  state : GtState
deriving DecidableEq, Repr

/-- Contents of a list object in a given state. -/
def readCell (st : GtState) : Cell → List (List ℚ)
  | Cell.boxesC => st.boxes
  | Cell.midC => st.mids
  | Cell.initC => st.initMids

/-- The `load_gt` generator of `SequenceLoader`, run to exhaustion on the
parsed rows of the annotation file.  Per row: if `int(box[0]) != self.frame`
then `self.frame += 1`, `self.midpoints = midpoints` (rebinding the
attribute to the local list), yield `midpoints` or `boxes` according to the
flag; on resume `del boxes[:]`, `del midpoints[:]`, `del self.midpoints[:]`
clear the two local lists in place.  Then the row is appended to both
buffers.  At end of input the generator yields `boxes` (the final flush). -/
def load_gt (choose : Bool) : GtState → List GTRow → List YieldEv
  | st, [] => [⟨Cell.boxesC, st.boxes, st⟩]
  | st, r :: rest =>
    if r.frame ≠ st.frame then
      let st1 : GtState := { st with frame := st.frame + 1, selfMid := Cell.midC }
      let ev : YieldEv := ⟨if choose then Cell.midC else Cell.boxesC,
                           if choose then st1.mids else st1.boxes, st1⟩
      ev :: load_gt choose { st1 with boxes := [boxOf r], mids := [midOf r] } rest
    else
      load_gt choose { st with boxes := st.boxes ++ [boxOf r],
                               mids := st.mids ++ [midOf r] } rest

/-- State at the first pull of the generator: empty buffers,
`self.midpoints = []` from `__init__`, `self.frame = 1` set by `__iter__`. -/
def initState : GtState := ⟨[], [], [], Cell.initC, 1⟩

/-- The sequence of group values the grouper emits, in emission order. -/
def emitted (choose : Bool) (rows : List GTRow) : List (List (List ℚ)) :=
  (load_gt choose initState rows).map YieldEv.value

/-- In full-box mode, the concatenation of the emitted group values equals
the pending buffer followed by one box per input row, in input order. -/
theorem load_gt_boxes_join (rows : List GTRow) : ∀ st : GtState,
    ((load_gt false st rows).map YieldEv.value).flatten = st.boxes ++ rows.map boxOf := by
  induction rows with
  | nil => intro st; simp [load_gt]
  | cons r rest ih =>
    intro st
    by_cases h : r.frame = st.frame
    · simp [load_gt, h, ih]
    · simp [load_gt, h, ih]

/-- C2: for every annotation input, concatenating the groups emitted by the
frame-annotation grouper (full-box representation) in emission order
reproduces exactly the original sequence — hence multiset — of records:
no record is lost and none is duplicated. -/
theorem c2_grouper_completeness (rows : List GTRow) :
    (emitted false rows).flatten = rows.map boxOf := by
  simpa [emitted, initState] using load_gt_boxes_join rows initState

/-- Frame-sorted input with records for frames 1 and 3 and none for frame 2
(declared sequence length 3). -/
def rowsGap : List GTRow := [⟨1, 0, 10, 20, 4, 6⟩, ⟨3, 0, 30, 40, 2, 2⟩]

/-- C1: evaluation at the failing input.  For frame-sorted records on frames
1 and 3 only (frame 2 has zero records), the grouper emits exactly two
groups — frame 1's records and then frame 3's records — and no empty group
at all: frame 2's empty group is never emitted, and frame 3's records are
delivered in the slot where frame 2's group should be. -/
theorem c1_empty_frame_dropped :
    emitted false rowsGap = [[[10, 20, 4, 6]], [[30, 40, 2, 2]]]
      ∧ (emitted false rowsGap).length = 2
      ∧ ∀ g ∈ emitted false rowsGap, g ≠ [] := by
  decide

/-- Midpoint-mode input with one record each for frames 1 and 2. -/
def rowsTwo : List GTRow := [⟨1, 0, 0, 0, 2, 2⟩, ⟨2, 0, 4, 4, 2, 2⟩]

/-- C5: evaluation at the failing input.  With the midpoint flag set, the
boundary group for frame 1 is the midpoint list `[[1, 1]]`, but the final
flush (`yield (boxes)`) delivers the full box `[[4, 4, 2, 2]]` for frame 2,
not its midpoint `[[5, 5]]`. -/
theorem c5_final_flush_is_boxes :
    emitted true rowsTwo = [[[1, 1]], [[4, 4, 2, 2]]]
      ∧ (emitted true rowsTwo).getLast? = some [[4, 4, 2, 2]]
      ∧ (emitted true rowsTwo).getLast? ≠ some [midOf ⟨2, 0, 4, 4, 2, 2⟩] := by
  refine ⟨?_, ?_, ?_⟩ <;>
    norm_num [emitted, load_gt, rowsTwo, initState, midOf, boxOf]

/-! ### The ground-truth normalizer `fix_gt` -/

/-- Numeric value of a decimal digit character. -/
def digitVal (c : Char) : Nat := c.toNat - 48

/-- Value of a decimal digit string, as Python `int` computes it. -/
def natOfDigits (l : List Char) : Nat := l.foldl (fun n c => n * 10 + digitVal c) 0

/-- Models Python `int(row[0])` on well-formed integer fields: an optional
leading minus sign followed by decimal digits. -/
def parseIntField (s : String) : Int :=
  match s.data with
  | '-' :: rest => -(natOfDigits rest : Int)
  | l => (natOfDigits l : Int)

/-- The sort key `lambda row: int(row[0])` used by `fix_gt`. -/
def rowKey (r : List String) : Int := parseIntField (r.headD "")

/-- Insertion step of a stable ascending sort: the new row goes after every
stored row whose key is `≤` its own key. -/
def insertRow (r : List String) : List (List String) → List (List String)
  | [] => [r]
  | s :: rest =>
    if rowKey s ≤ rowKey r then s :: insertRow r rest
    else r :: s :: rest

/-- `fix_gt`: `sorted(reader, key=lambda row: int(row[0]), reverse=False)`.
Python's `sorted` is specified as a stable ascending sort by the key;
it is modelled on the list of CSV rows `csv.reader` produces (each row a
list of field strings, preserved verbatim) as left-to-right stable
insertion.  The write-back through `csv.writer` keeps rows and fields in
this order. -/
def fix_gt (rows : List (List String)) : List (List String) :=
  rows.foldl (fun acc r => insertRow r acc) []

/-- Rows are in non-decreasing frame-key order. -/
def keySorted (l : List (List String)) : Prop :=
  l.Pairwise fun a b => rowKey a ≤ rowKey b

/-- The rows with a given frame key, in order. -/
def filterKey (k : Int) (l : List (List String)) : List (List String) :=
  l.filter fun s => rowKey s == k

theorem mem_insertRow {x r : List String} : ∀ {l}, x ∈ insertRow r l → x = r ∨ x ∈ l := by
  intro l
  induction l with
  | nil => simp [insertRow]
  | cons s rest ih =>
    simp only [insertRow]
    split
    · intro hx
      rcases List.mem_cons.mp hx with h | h
      · exact Or.inr (by simp [h])
      · rcases ih h with h1 | h1
        · exact Or.inl h1
        · exact Or.inr (List.mem_cons_of_mem _ h1)
    · intro hx
      rcases List.mem_cons.mp hx with h | h
      · exact Or.inl h
      · exact Or.inr h

theorem keySorted_insertRow (r : List String) :
    ∀ l, keySorted l → keySorted (insertRow r l) := by
  intro l
  induction l with
  | nil => intro _; simp [insertRow, keySorted]
  | cons s rest ih =>
    intro h
    rw [keySorted, List.pairwise_cons] at h
    obtain ⟨hs, hrest⟩ := h
    by_cases hle : rowKey s ≤ rowKey r
    · rw [keySorted]
      simp only [insertRow, if_pos hle]
      rw [List.pairwise_cons]
      constructor
      · intro x hx
        rcases mem_insertRow hx with rfl | hx2
        · exact hle
        · exact hs x hx2
      · exact ih hrest
    · rw [keySorted]
      simp only [insertRow, if_neg hle]
      rw [List.pairwise_cons]
      constructor
      · intro x hx
        rcases List.mem_cons.mp hx with rfl | hx2
        · exact le_of_lt (lt_of_not_le hle)
        · exact le_trans (le_of_lt (lt_of_not_le hle)) (hs x hx2)
      · rw [List.pairwise_cons]
        exact ⟨hs, hrest⟩

theorem filterKey_insertRow_ne {r : List String} {k : Int} (hk : rowKey r ≠ k) :
    ∀ l, filterKey k (insertRow r l) = filterKey k l := by
  intro l
  induction l with
  | nil => simp [insertRow, filterKey, hk]
  | cons s rest ih =>
    simp only [insertRow]
    split
    · simp only [filterKey, List.filter_cons] at *
      split <;> simp [ih]
    · simp [filterKey, List.filter_cons, hk]

theorem filterKey_insertRow_self (r : List String) :
    ∀ l, keySorted l →
      filterKey (rowKey r) (insertRow r l) = filterKey (rowKey r) l ++ [r] := by
  intro l
  induction l with
  | nil => simp [insertRow, filterKey]
  | cons s rest ih =>
    intro h
    rw [keySorted, List.pairwise_cons] at h
    obtain ⟨hs, hrest⟩ := h
    by_cases hle : rowKey s ≤ rowKey r
    · simp only [insertRow, if_pos hle]
      simp only [filterKey, List.filter_cons] at *
      split <;> simp [ih hrest]
    · simp only [insertRow, if_neg hle]
      have hnone : filterKey (rowKey r) (s :: rest) = [] := by
        simp only [filterKey, List.filter_eq_nil_iff]
        intro x hx
        rcases List.mem_cons.mp hx with rfl | hx2
        · simpa using fun he => hle (le_of_eq he)
        · have h1 : rowKey s ≤ rowKey x := hs x hx2
          have h2 : rowKey r < rowKey s := lt_of_not_le hle
          simpa using fun he => absurd (he ▸ lt_of_lt_of_le h2 h1) (lt_irrefl _)
      simp only [filterKey, List.filter_cons] at *
      rw [hnone]
      simp

theorem fix_gt_fold_spec (rows : List (List String)) :
    ∀ acc, keySorted acc →
      keySorted (rows.foldl (fun a r => insertRow r a) acc)
        ∧ ∀ k, filterKey k (rows.foldl (fun a r => insertRow r a) acc)
            = filterKey k acc ++ filterKey k rows := by
  induction rows with
  | nil =>
    intro acc h
    exact ⟨h, by simp [filterKey]⟩
  | cons r rest ih =>
    intro acc h
    obtain ⟨h1, h2⟩ := ih (insertRow r acc) (keySorted_insertRow r acc h)
    refine ⟨h1, fun k => ?_⟩
    rw [List.foldl_cons, h2 k]
    by_cases hk : rowKey r = k
    · subst hk
      rw [filterKey_insertRow_self r acc h]
      simp [filterKey, List.filter_cons, List.append_assoc]
    · rw [filterKey_insertRow_ne hk acc]
      simp [filterKey, List.filter_cons, hk]

/-- C3: `fix_gt` is the stable ascending sort by integer frame key: its
output is in non-decreasing frame-key order, and for every frame key the
rows with that key appear exactly as in the input (same rows, same fields,
same relative order) — together these determine the stable sort uniquely.
In particular the rows with frames `[3, 1, 2, 1]` come out as
`[1, 1, 2, 3]` with the two frame-1 rows in their original order. -/
theorem c3_fix_gt_stable_sort (rows : List (List String)) :
    keySorted (fix_gt rows)
      ∧ (∀ k : Int, filterKey k (fix_gt rows) = filterKey k rows)
      ∧ fix_gt [["3", "p"], ["1", "a"], ["2", "q"], ["1", "b"]]
          = [["1", "a"], ["1", "b"], ["2", "q"], ["3", "p"]] := by
  obtain ⟨h1, h2⟩ := fix_gt_fold_spec rows [] (by simp [keySorted])
  refine ⟨by simpa [fix_gt] using h1, fun k => ?_, by decide⟩
  simpa [fix_gt, filterKey] using h2 k

theorem insertRow_append (r : List String) :
    ∀ l, (∀ a ∈ l, rowKey a ≤ rowKey r) → insertRow r l = l ++ [r] := by
  intro l
  induction l with
  | nil => simp [insertRow]
  | cons s rest ih =>
    intro hall
    simp only [insertRow, if_pos (hall s (by simp))]
    rw [ih fun a ha => hall a (List.mem_cons_of_mem _ ha)]
    simp

theorem fold_of_sorted (l : List (List String)) :
    ∀ acc, keySorted (acc ++ l) →
      l.foldl (fun a r => insertRow r a) acc = acc ++ l := by
  induction l with
  | nil => intro acc _; simp
  | cons r rest ih =>
    intro acc h
    rw [keySorted, List.pairwise_append] at h
    obtain ⟨hacc, hl, hcross⟩ := h
    rw [List.foldl_cons, insertRow_append r acc fun a ha => hcross a ha r (by simp)]
    have : keySorted ((acc ++ [r]) ++ rest) := by
      rw [List.append_assoc]
      rw [keySorted, List.pairwise_append]
      exact ⟨hacc, hl, hcross⟩
    rw [ih (acc ++ [r]) this, List.append_assoc]
    simp

/-- C4: the normalizer is deterministic (re-invocation on unchanged input
reproduces the same output) and idempotent: its output is a fixed point,
`fix_gt (fix_gt x) = fix_gt x`. -/
theorem c4_fix_gt_idempotent (rows : List (List String)) :
    fix_gt rows = fix_gt rows ∧ fix_gt (fix_gt rows) = fix_gt rows := by
  refine ⟨rfl, ?_⟩
  have h : keySorted (fix_gt rows) :=
    (fix_gt_fold_spec rows [] (by simp [keySorted])).1
  have h2 := fold_of_sorted (fix_gt rows) [] (by simpa using h)
  simpa [fix_gt] using h2

/-! ### The per-sequence frame loop `SequenceLoader.__iter__` -/

/-- The frame loop of `SequenceLoader.__iter__`: for
`frame in range(1, seqLength + 1)` read the image for the zero-padded frame
number; if `cv2.imread` returns `None` (file absent) the loop `break`s,
ending iteration cleanly; otherwise the image is paired with
`next(generator)`, the next group from the grouper.  `none` as the overall
result models the error Python raises when the grouper is exhausted while
an image is still present; `some pairs` models clean termination. -/
def seqIterGo {α : Type} (imread : Nat → Option α) :
    Nat → Nat → List (List (List ℚ)) → Option (List (α × List (List ℚ)))
  | _, 0, _ => some []
  | frame, fuel + 1, groups =>
    match imread frame with
    | none => some []
    | some img =>
      match groups with
      | [] => none
      | g :: gs => (seqIterGo imread (frame + 1) fuel gs).map fun l => (img, g) :: l

/-- The pairs yielded by `SequenceLoader.__iter__` for a sequence of
declared length `seqLength`, given which image files are present and the
stream of groups the grouper delivers. -/
def seqIter {α : Type} (seqLength : Nat) (imread : Nat → Option α)
    (groups : List (List (List ℚ))) : Option (List (α × List (List ℚ))) :=
  seqIterGo imread 1 seqLength groups

theorem seqIterGo_spec {α : Type} (imread : Nat → Option α) :
    ∀ (k frame fuel : Nat) (groups : List (List (List ℚ))),
      (∀ i, i < k → (imread (frame + i)).isSome) →
      imread (frame + k) = none → k < fuel → k ≤ groups.length →
      ∃ l, seqIterGo imread frame fuel groups = some l ∧ l.length = k := by
  intro k
  induction k with
  | zero =>
    intro frame fuel groups _ hmiss hfuel _
    obtain ⟨f, rfl⟩ := Nat.exists_eq_succ_of_ne_zero (Nat.pos_iff_ne_zero.mp hfuel)
    refine ⟨[], ?_, rfl⟩
    simpa [seqIterGo] using by rw [show frame + 0 = frame from rfl] at hmiss; simp [hmiss]
  | succ j ih =>
    intro frame fuel groups havail hmiss hfuel hg
    obtain ⟨f, rfl⟩ := Nat.exists_eq_succ_of_ne_zero (Nat.not_eq_zero_of_lt hfuel)
    have h0 : (imread frame).isSome := by
      simpa using havail 0 (Nat.succ_pos j)
    obtain ⟨img, himg⟩ := Option.isSome_iff_exists.mp h0
    obtain ⟨g, gs, rfl⟩ : ∃ g gs, groups = g :: gs := by
      cases groups with
      | nil => simp at hg
      | cons g gs => exact ⟨g, gs, rfl⟩
    obtain ⟨l, hl, hlen⟩ := ih (frame + 1) f gs
      (fun i hi => by simpa [Nat.add_right_comm] using havail (i + 1) (Nat.succ_lt_succ hi))
      (by simpa [Nat.add_right_comm] using hmiss)
      (Nat.lt_of_succ_lt_succ hfuel)
      (Nat.le_of_succ_le_succ hg)
    exact ⟨(img, g) :: l, by simp [seqIterGo, himg, hl], by simp [hlen]⟩

/-- C6: for a sequence whose manifest declares `seqLength = N` but whose
image directory holds only the first `k < N` expected image files (and
whose annotation source provides at least `k` groups, as any annotation
file covering the available frames does), the sequence iterator yields
exactly `k` (image, group) pairs and then terminates without error. -/
theorem c6_truncated_images {α : Type} (N k : Nat) (imread : Nat → Option α)
    (groups : List (List (List ℚ)))
    (hk : k < N)
    (havail : ∀ f, 1 ≤ f → f ≤ k → (imread f).isSome)
    (hmiss : imread (k + 1) = none)
    (hg : k ≤ groups.length) :
    ∃ l, seqIter N imread groups = some l ∧ l.length = k := by
  refine seqIterGo_spec imread k 1 N groups (fun i hi => ?_) ?_ hk hg
  · exact havail (1 + i) (Nat.le_add_right 1 i) (by omega)
  · rw [Nat.add_comm]
    exact hmiss

/-- Witness for C6 at the concrete scenario of the claim: `seqLength = 5`,
only images 1–3 present, five groups available — exactly 3 pairs, no
error. -/
theorem c6_truncated_images_witness :
    ∃ l, seqIter 5 (fun f => if f ≤ 3 then some f else none)
        ([[], [], [], [], []] : List (List (List ℚ))) = some l ∧ l.length = 3 :=
  c6_truncated_images 5 3 (fun f => if f ≤ 3 then some f else none)
    [[], [], [], [], []] (by decide)
    (fun f _ h2 => by simp [h2]) (by rfl) (by decide)

/-! ### The dataset loop `DataLoader.__iter__` -/

/-- How a dataset iteration run ends, as seen by the caller. -/
inductive Outcome
  | cleanEnd
  | propagated
deriving DecidableEq, Repr

/-- What a run of `DataLoader.__iter__` delivered: the sequence numbers
yielded, and how iteration ended for the caller. -/
structure DataIterResult where
  seqs : List Nat
  outcome : Outcome
deriving DecidableEq, Repr

/-- `DataLoader.load_sequence`: glob for the two-digit sequence directory —
no match raises `IOError` — then `SequenceLoader.__init__` opens
`seqinfo.ini`, whose failure also raises `IOError` (alias of `OSError`,
which `open` raises).  Both failures are the same exception type. -/
def load_sequence (dirFound manifestReadable : Nat → Bool) (n : Nat) :
    Except Unit Nat :=
  if dirFound n then
    if manifestReadable n then Except.ok n else Except.error ()
  else Except.error ()

/-- The loop of `DataLoader.__iter__`: starting at sequence 1, try
`load_sequence`; on success yield and increment, on `IOError` set
`error_check` and end the loop (no raise to the caller).  `fuel` bounds the
number of loop iterations modelled. -/
def dataIterGo (dirFound manifestReadable : Nat → Bool) : Nat → Nat → DataIterResult
  | _, 0 => ⟨[], Outcome.cleanEnd⟩
  | n, fuel + 1 =>
    match load_sequence dirFound manifestReadable n with
    | Except.ok s =>
      let r := dataIterGo dirFound manifestReadable (n + 1) fuel
      ⟨s :: r.seqs, r.outcome⟩
    | Except.error _ => ⟨[], Outcome.cleanEnd⟩

/-- A full run of `DataLoader.__iter__`. -/
def dataIter (dirFound manifestReadable : Nat → Bool) (fuel : Nat) : DataIterResult :=
  dataIterGo dirFound manifestReadable 1 fuel

theorem dataIterGo_spec (dirFound manifestReadable : Nat → Bool) :
    ∀ (m start fuel : Nat), m < fuel →
      (∀ i ∈ List.range' start m, dirFound i = true ∧ manifestReadable i = true) →
      (dirFound (start + m) = false ∨ manifestReadable (start + m) = false) →
      dataIterGo dirFound manifestReadable start fuel
        = ⟨List.range' start m, Outcome.cleanEnd⟩ := by
  intro m
  induction m with
  | zero =>
    intro start fuel hfuel _ hfail
    obtain ⟨f, rfl⟩ := Nat.exists_eq_succ_of_ne_zero (Nat.pos_iff_ne_zero.mp hfuel)
    rcases hfail with h | h <;>
      simp_all [dataIterGo, load_sequence]
  | succ j ih =>
    intro start fuel hfuel hall hfail
    obtain ⟨f, rfl⟩ := Nat.exists_eq_succ_of_ne_zero (Nat.not_eq_zero_of_lt hfuel)
    obtain ⟨hd, hm⟩ := hall start (by simp [List.range'_succ])
    have hrec := ih (start + 1) f (Nat.lt_of_succ_lt_succ hfuel)
      (fun i hi => hall i (by simp [List.range'_succ, hi]))
      (by rw [show start + 1 + j = start + (j + 1) by omega]; exact hfail)
    simp [dataIterGo, load_sequence, hd, hm, hrec, List.range'_succ]

/-- C7: with every sequence directory `1 .. m` present (manifests readable)
and directory `m + 1` absent, the dataset iterator yields exactly the
sequences `1 .. m` in order and then ends cleanly — a gap in the numbering
hides every later directory. -/
theorem c7_dataset_gap (dirFound : Nat → Bool) (m fuel : Nat)
    (hfuel : m < fuel)
    (hall : ∀ i ∈ List.range' 1 m, dirFound i = true)
    (hmiss : dirFound (m + 1) = false) :
    dataIter dirFound (fun _ => true) fuel = ⟨List.range' 1 m, Outcome.cleanEnd⟩ := by
  refine dataIterGo_spec dirFound (fun _ => true) m 1 fuel hfuel
    (fun i hi => ⟨hall i hi, rfl⟩) ?_
  left
  rwa [Nat.add_comm]

/-- Witness for C7 at the concrete scenario of the claim: directories
numbered 1, 2 and 4 present (gap at 3) yield exactly sequences 1 and 2. -/
theorem c7_dataset_gap_witness :
    dataIter (fun n => n == 1 || n == 2 || n == 4) (fun _ => true) 3
      = ⟨[1, 2], Outcome.cleanEnd⟩ :=
  c7_dataset_gap (fun n => n == 1 || n == 2 || n == 4) 2 3
    (by decide) (by decide) (by decide)

/-- C9 counterexample: sequence directory 1 exists but its manifest cannot
be opened.  The resulting `IOError` is caught by the same
`except IOError` that handles the missing-directory condition: iteration
ends cleanly with zero sequences, and nothing propagates to the caller —
refuting the claim that a generic I/O failure propagates. -/
theorem c9_counterexample :
    dataIter (fun n => n == 1) (fun _ => false) 5 = ⟨[], Outcome.cleanEnd⟩
      ∧ (dataIter (fun n => n == 1) (fun _ => false) 5).outcome ≠ Outcome.propagated := by
  decide

/-- C9 amended: every `IOError` raised while loading sequence `m + 1` —
whether the directory is missing or the directory exists and its manifest
cannot be opened — is absorbed by the dataset iterator's `except IOError`:
iteration ends cleanly after the sequences `1 .. m`, with no retry and no
error surfaced to the caller. -/
theorem c9_ioerror_absorbed (dirFound manifestReadable : Nat → Bool) (m fuel : Nat)
    (hfuel : m < fuel)
    (hall : ∀ i ∈ List.range' 1 m, dirFound i = true ∧ manifestReadable i = true)
    (hfail : dirFound (m + 1) = false ∨ manifestReadable (m + 1) = false) :
    dataIter dirFound manifestReadable fuel = ⟨List.range' 1 m, Outcome.cleanEnd⟩ :=
  dataIterGo_spec dirFound manifestReadable m 1 fuel hfuel hall
    (by rwa [Nat.add_comm] at hfail)

/-- Witness for the amended C9: directories 1–3 exist but only manifest 1
is readable — the run yields sequence 1 and ends cleanly. -/
theorem c9_ioerror_absorbed_witness :
    dataIter (fun n => n == 1 || n == 2 || n == 3) (fun n => n == 1) 4
      = ⟨[1], Outcome.cleanEnd⟩ :=
  c9_ioerror_absorbed (fun n => n == 1 || n == 2 || n == 3) (fun n => n == 1) 1 4
    (by decide) (by decide) (by decide)

/-! ### `SequenceLoader.update_metrics` -/

/-- Squared Euclidean distance between two midpoints. -/
def norm2squared (a b : ℚ × ℚ) : ℚ := (a.1 - b.1) ^ 2 + (a.2 - b.2) ^ 2

/-- Modelled from the spec: the external collaborator
`motmetrics.distances.norm2squared_matrix(objs, hyps)` — the spec fixes its
contract as the matrix of squared Euclidean distances, one row per element
of the first argument, one column per element of the second. -/
def norm2squared_matrix (objs hyps : List (ℚ × ℚ)) : List (List ℚ) :=
  objs.map fun o => hyps.map fun b => norm2squared o b

/-- One `accumulator.update(oids, hids, dists)` call as received by the
metrics collaborator. -/
structure AccUpdate where
  oids : List Nat
  hids : List Nat
  dists : List (List ℚ)
deriving DecidableEq, Repr

/-- `SequenceLoader.update_metrics`: builds the distance matrix between the
predictions and `self.midpoints`, forwards it to the accumulator with
`list(range(len(self.midpoints)))` as ground-truth ids and
`list(range(len(predictions)))` as prediction ids, and returns it. -/
def update_metrics (predictions midpoints : List (ℚ × ℚ)) :
    List (List ℚ) × AccUpdate :=
  let dists := norm2squared_matrix predictions midpoints
  (dists, ⟨List.range midpoints.length, List.range predictions.length, dists⟩)

/-- C8: for `P` predictions and `G` ground-truth midpoints,
`update_metrics` returns a `P × G` matrix whose `(i, j)` entry is the
non-negative squared Euclidean distance between prediction `i` and
ground-truth midpoint `j`, and forwards that same matrix to the accumulator
keyed by the ground-truth indices `0 .. G-1` and prediction indices
`0 .. P-1`. -/
theorem c8_update_metrics (preds mids : List (ℚ × ℚ)) (i j : Nat)
    (hi : i < preds.length) (hj : j < mids.length) :
    (update_metrics preds mids).1.length = preds.length
      ∧ ((update_metrics preds mids).1.getD i []).length = mids.length
      ∧ ((update_metrics preds mids).1.getD i []).getD j 0
          = norm2squared (preds.getD i (0, 0)) (mids.getD j (0, 0))
      ∧ 0 ≤ ((update_metrics preds mids).1.getD i []).getD j 0
      ∧ (update_metrics preds mids).2
          = ⟨List.range mids.length, List.range preds.length,
             (update_metrics preds mids).1⟩ := by
  have hpi : preds.getD i (0, 0) = preds[i] := by
    simp [List.getD_eq_getElem?_getD, List.getElem?_eq_getElem hi]
  have hmj : mids.getD j (0, 0) = mids[j] := by
    simp [List.getD_eq_getElem?_getD, List.getElem?_eq_getElem hj]
  have hrow : (update_metrics preds mids).1.getD i []
      = mids.map fun b => norm2squared preds[i] b := by
    simp [update_metrics, norm2squared_matrix, List.getD_eq_getElem?_getD,
      List.getElem?_map, List.getElem?_eq_getElem hi]
  have hentry : ((update_metrics preds mids).1.getD i []).getD j 0
      = norm2squared preds[i] mids[j] := by
    rw [hrow]
    simp [List.getD_eq_getElem?_getD, List.getElem?_map, List.getElem?_eq_getElem hj]
  refine ⟨by simp [update_metrics, norm2squared_matrix], ?_, ?_, ?_, rfl⟩
  · rw [hrow]; simp
  · rw [hentry, hpi, hmj]
  · rw [hentry]
    exact add_nonneg (sq_nonneg _) (sq_nonneg _)

/-- Witness for C8 at one prediction `(0, 0)` and one ground-truth midpoint
`(3, 4)`. -/
theorem c8_update_metrics_witness :
    (update_metrics [((0 : ℚ), (0 : ℚ))] [((3 : ℚ), (4 : ℚ))]).1.length
        = ([((0 : ℚ), (0 : ℚ))] : List (ℚ × ℚ)).length
      ∧ ((update_metrics [((0 : ℚ), (0 : ℚ))] [((3 : ℚ), (4 : ℚ))]).1.getD 0 []).length
          = ([((3 : ℚ), (4 : ℚ))] : List (ℚ × ℚ)).length
      ∧ ((update_metrics [((0 : ℚ), (0 : ℚ))] [((3 : ℚ), (4 : ℚ))]).1.getD 0 []).getD 0 0
          = norm2squared (([((0 : ℚ), (0 : ℚ))] : List (ℚ × ℚ)).getD 0 (0, 0))
              (([((3 : ℚ), (4 : ℚ))] : List (ℚ × ℚ)).getD 0 (0, 0))
      ∧ 0 ≤ ((update_metrics [((0 : ℚ), (0 : ℚ))] [((3 : ℚ), (4 : ℚ))]).1.getD 0 []).getD 0 0
      ∧ (update_metrics [((0 : ℚ), (0 : ℚ))] [((3 : ℚ), (4 : ℚ))]).2
          = ⟨List.range ([((3 : ℚ), (4 : ℚ))] : List (ℚ × ℚ)).length,
             List.range ([((0 : ℚ), (0 : ℚ))] : List (ℚ × ℚ)).length,
             (update_metrics [((0 : ℚ), (0 : ℚ))] [((3 : ℚ), (4 : ℚ))]).1⟩ :=
  c8_update_metrics [((0 : ℚ), (0 : ℚ))] [((3 : ℚ), (4 : ℚ))] 0 0
    (by decide) (by decide)

/-! ### Aliasing of the yielded group lists (C10) -/

theorem load_gt_mids_ne_nil (choose : Bool) : ∀ (rows : List GTRow) (st : GtState),
    st.mids ≠ [] → ∀ ev ∈ load_gt choose st rows, ev.state.mids ≠ [] := by
  intro rows
  induction rows with
  | nil =>
    intro st h ev hev
    simp only [load_gt, List.mem_singleton] at hev
    subst hev
    exact h
  | cons r rest ih =>
    intro st h ev hev
    by_cases hf : r.frame = st.frame
    · rw [show load_gt choose st (r :: rest)
          = load_gt choose { st with boxes := st.boxes ++ [boxOf r],
                                     mids := st.mids ++ [midOf r] } rest by
        simp [load_gt, hf]] at hev
      refine ih _ ?_ ev hev
      simp
    · rw [show load_gt choose st (r :: rest)
          = (⟨if choose then Cell.midC else Cell.boxesC,
              if choose then st.mids else st.boxes,
              { st with frame := st.frame + 1, selfMid := Cell.midC }⟩ : YieldEv)
            :: load_gt choose { st with frame := st.frame + 1, selfMid := Cell.midC,
                                        boxes := [boxOf r], mids := [midOf r] } rest by
        simp [load_gt, hf]] at hev
      rcases List.mem_cons.mp hev with rfl | hev
      · exact h
      · refine ih _ ?_ ev hev
        simp

theorem load_gt_consecutive (rows : List GTRow) :
    ∀ (st : GtState) (i : Nat) (ev ev' : YieldEv),
      (load_gt true st rows)[i]? = some ev →
      (load_gt true st rows)[i + 1]? = some ev' →
      ev.cell = Cell.midC ∧ ev.state.selfMid = Cell.midC
        ∧ ev.value = ev.state.mids ∧ ev'.state.mids ≠ [] := by
  induction rows with
  | nil =>
    intro st i ev ev' _ hev'
    simp [load_gt] at hev'
  | cons r rest ih =>
    intro st i ev ev' hev hev'
    by_cases hf : r.frame = st.frame
    · rw [show load_gt true st (r :: rest)
          = load_gt true { st with boxes := st.boxes ++ [boxOf r],
                                   mids := st.mids ++ [midOf r] } rest by
        simp [load_gt, hf]] at hev hev'
      exact ih _ i ev ev' hev hev'
    · rw [show load_gt true st (r :: rest)
          = (⟨Cell.midC,
              { st with frame := st.frame + 1, selfMid := Cell.midC }.mids,
              { st with frame := st.frame + 1, selfMid := Cell.midC }⟩ : YieldEv)
            :: load_gt true { st with frame := st.frame + 1, selfMid := Cell.midC,
                                      boxes := [boxOf r], mids := [midOf r] } rest by
        simp [load_gt, hf]] at hev hev'
      cases i with
      | zero =>
        simp only [List.getElem?_cons_zero, Option.some.injEq] at hev
        simp only [List.getElem?_cons_succ] at hev'
        subst hev
        refine ⟨rfl, rfl, rfl, ?_⟩
        have hmem := List.getElem?_mem hev'
        refine load_gt_mids_ne_nil true rest _ ?_ ev' hmem
        simp
      | succ n =>
        simp only [List.getElem?_cons_succ] at hev hev'
        exact ih _ n ev ev' hev hev'

/-- C10 amended: in midpoint mode, every group the grouper yields at a
frame boundary is the very list object that `self.midpoints` denotes
(`value = state.mids`, `selfMid = midC`); pulling the next group clears
that object in place and refills it with the next frame's records, so by
the time the next (image, group) pair is delivered the list previously
returned is nonempty again — it now holds the next frame's group, not the
old one and not the empty list.  A caller must therefore consume or copy
each group before advancing. -/
theorem c10_group_aliasing_refill (rows : List GTRow) (i : Nat) (ev ev' : YieldEv)
    (hev : (load_gt true initState rows)[i]? = some ev)
    (hev' : (load_gt true initState rows)[i + 1]? = some ev') :
    ev.cell = Cell.midC ∧ ev.state.selfMid = Cell.midC
      ∧ ev.value = ev.state.mids
      ∧ readCell ev'.state ev.cell ≠ [] := by
  obtain ⟨h1, h2, h3, h4⟩ := load_gt_consecutive rows initState i ev ev' hev hev'
  exact ⟨h1, h2, h3, by rw [h1]; exact h4⟩

/-- Witness for the amended C10 at `rowsTwo`: the boundary group for
frame 1 is the `midpoints` object aliased by `self.midpoints`, and after
the final pull that object holds frame 2's (nonempty) midpoints. -/
theorem c10_group_aliasing_refill_witness :
    (⟨Cell.midC, [[1, 1]],
        ⟨[[0, 0, 2, 2]], [[1, 1]], [], Cell.midC, 2⟩⟩ : YieldEv).cell = Cell.midC
      ∧ (⟨Cell.midC, [[1, 1]],
          ⟨[[0, 0, 2, 2]], [[1, 1]], [], Cell.midC, 2⟩⟩ : YieldEv).state.selfMid
            = Cell.midC
      ∧ (⟨Cell.midC, [[1, 1]],
          ⟨[[0, 0, 2, 2]], [[1, 1]], [], Cell.midC, 2⟩⟩ : YieldEv).value
          = (⟨Cell.midC, [[1, 1]],
              ⟨[[0, 0, 2, 2]], [[1, 1]], [], Cell.midC, 2⟩⟩ : YieldEv).state.mids
      ∧ readCell (⟨Cell.boxesC, [[4, 4, 2, 2]],
            ⟨[[4, 4, 2, 2]], [[5, 5]], [], Cell.midC, 2⟩⟩ : YieldEv).state
          (⟨Cell.midC, [[1, 1]],
            ⟨[[0, 0, 2, 2]], [[1, 1]], [], Cell.midC, 2⟩⟩ : YieldEv).cell ≠ [] :=
  c10_group_aliasing_refill rowsTwo 0
    ⟨Cell.midC, [[1, 1]], ⟨[[0, 0, 2, 2]], [[1, 1]], [], Cell.midC, 2⟩⟩
    ⟨Cell.boxesC, [[4, 4, 2, 2]], ⟨[[4, 4, 2, 2]], [[5, 5]], [], Cell.midC, 2⟩⟩
    (by norm_num [load_gt, initState, rowsTwo, midOf, boxOf])
    (by norm_num [load_gt, initState, rowsTwo, midOf, boxOf])

/-- C10 counterexample: with one record each for frames 1 and 2 in midpoint
mode, once the second (final) group has been pulled, the list object that
was returned as frame 1's group (`midpoints`, aliased by
`self.midpoints`) holds frame 2's midpoint `[[5, 5]]` — it is not the empty
list the claim predicts. -/
theorem c10_counterexample :
    ((load_gt true initState rowsTwo).map YieldEv.cell = [Cell.midC, Cell.boxesC])
      ∧ readCell ((load_gt true initState rowsTwo).getD 1
            ⟨Cell.initC, [], initState⟩).state
          (((load_gt true initState rowsTwo).getD 0
            ⟨Cell.initC, [], initState⟩).cell) = [[5, 5]]
      ∧ readCell ((load_gt true initState rowsTwo).getD 1
            ⟨Cell.initC, [], initState⟩).state
          (((load_gt true initState rowsTwo).getD 0
            ⟨Cell.initC, [], initState⟩).cell) ≠ [] := by
  refine ⟨?_, ?_, ?_⟩ <;>
    norm_num [load_gt, initState, rowsTwo, midOf, boxOf, readCell]

end Benchmark
